import Mathlib

/-!
Verification of the Maple MCTS search core against its specification.

The development shallowly embeds the Python sources:
  * `src/board/record.py`  — the hash-history ledger (`Record`);
  * `src/mcts/node.py`     — the search-tree node (`MCTSNode`).

Python `int` counters become `ℤ`, `float` accumulators become `ℚ`,
`numpy.uint64` hashes become `Fin (2 ^ 64)`, and the parallel numpy
arrays become Lean `List`s mutated with `List.set`.  Fallible behaviour
(a reported error, a raised `KeyError`/`ValueError`) is made explicit:
`Record.save` returns the new state together with an error flag, and
operations that can raise return `Option`.

Constants that live in files absent from `src/` (`board/constant.py`,
`board/stone.py`, `mcts/constant.py`, `mcts/pucb/pucb.py`) are modelled
from the specification and carry a doc comment saying so.
-/

/-- Modelled from the spec: `board/stone.py` is not in `src/`.  The stone
colour enumeration; the ledger's empty state stores `Stone.EMPTY`. -/
inductive Stone where
  | EMPTY : Stone
  | BLACK : Stone
  | WHITE : Stone
deriving DecidableEq, Repr

/-- Modelled from the spec: `board/constant.py` is not in `src/`.  The
sentinel "pass" position stored in empty ledger slots. -/
def PASS : ℤ := 0

/-- Modelled from the spec: `board/constant.py` is not in `src/`.  The
board side length; the spec fixes only `MAX_ACTIONS = board_cells + 1`. -/
def BOARD_SIZE : ℕ := 9

/-- Modelled from the spec: `board/constant.py` is not in `src/`.  The
fixed capacity of the hash-history ledger. -/
def MAX_RECORDS : ℕ := BOARD_SIZE ^ 2 * 3

/-- Embeds `Record` (src/board/record.py): three parallel sequences
indexed by move number — stone colour, board position, position hash
(a `numpy.uint64`, embedded as `Fin (2 ^ 64)`). -/
structure Record where
  color : List Stone
  pos : List ℤ
  hash_value : List (Fin (2 ^ 64))
deriving DecidableEq, Repr

/-- Embeds `Record.__init__`: every slot in the empty state
(`Stone.EMPTY`, `PASS`, hash `0`). -/
def Record.init : Record :=
  { color := List.replicate MAX_RECORDS Stone.EMPTY
    pos := List.replicate MAX_RECORDS PASS
    hash_value := List.replicate MAX_RECORDS 0 }

/-- Embeds `Record.clear`: resets all slots to the empty state. -/
def Record.clear (_r : Record) : Record := Record.init

/-- Embeds `Record.save`: when `moves < MAX_RECORDS` the triple is
written at index `moves`; otherwise nothing is stored and an error is
printed (`print_err`), returned here as the `Bool` component. -/
def Record.save (r : Record) (moves : ℕ) (color : Stone) (pos : ℤ)
    (hash : Fin (2 ^ 64)) : Record × Bool :=
  if moves < MAX_RECORDS then
    ({ color := r.color.set moves color
       pos := r.pos.set moves pos
       hash_value := r.hash_value.set moves hash }, false)
  else
    (r, true)

/-- Embeds `Record.has_same_hash`: `np.any(self.hash_value == hash_value)`,
a linear scan of the full fixed-size array. -/
def Record.has_same_hash (r : Record) (hash : Fin (2 ^ 64)) : Bool :=
  r.hash_value.contains hash

/-- Embeds `Record.get`: returns the stored triple at index `moves`. -/
def Record.get (r : Record) (moves : ℕ) : Stone × ℤ × Fin (2 ^ 64) :=
  (r.color.getD moves Stone.EMPTY, r.pos.getD moves PASS,
    r.hash_value.getD moves 0)

/-- Well-formedness of a ledger: the three parallel sequences all have
the fixed capacity `MAX_RECORDS`, as every `Record` produced by the
constructor and the operations does. -/
def Record.WF (r : Record) : Prop :=
  r.color.length = MAX_RECORDS ∧ r.pos.length = MAX_RECORDS ∧
    r.hash_value.length = MAX_RECORDS

instance (r : Record) : Decidable r.WF := by
  unfold Record.WF; infer_instance

theorem Record.init_WF : Record.init.WF := by
  constructor <;> simp [Record.init]

theorem Record.save_WF (r : Record) (moves : ℕ) (c : Stone) (p : ℤ)
    (h : Fin (2 ^ 64)) (hr : r.WF) : (r.save moves c p h).1.WF := by
  obtain ⟨h1, h2, h3⟩ := hr
  unfold Record.save
  split <;> simp_all [Record.WF]

/-- Modelled from the spec: `mcts/constant.py` is not in `src/`.  The
sentinel stored in `children_index` for a not-yet-expanded child. -/
def NOT_EXPANDED : ℤ := -1

/-- Embeds `MAX_ACTIONS = BOARD_SIZE ** 2 + 1` (src/mcts/node.py): one
slot per intersection plus the pass move. -/
def MAX_ACTIONS : ℕ := BOARD_SIZE ^ 2 + 1

/-- Embeds `PUCT_WEIGHT = 1.0` (src/mcts/node.py): the fixed
exploration-weight constant of the PUCB score. -/
def PUCT_WEIGHT : ℚ := 1

/-- Embeds `MCTSNode` (src/mcts/node.py): aggregate statistics plus the
columnar per-child arrays.  Integer counters become `ℤ`, float
accumulators become `ℚ`, and each numpy array becomes a `List`. -/
structure MCTSNode where
  node_visits : ℤ
  virtual_loss : ℤ
  node_value_sum : ℚ
  action : List ℤ
  children_index : List ℤ
  children_value : List ℚ
  children_visits : List ℤ
  children_policy : List ℚ
  children_virtual_loss : List ℤ
  children_value_sum : List ℚ
  noise : List ℚ
  num_children : ℕ
deriving DecidableEq, Repr

/-- Embeds `MCTSNode.__init__(num_actions)`: zeroed aggregates and
per-child arrays of length `num_actions` (default `MAX_ACTIONS`). -/
def MCTSNode.init (num_actions : ℕ := MAX_ACTIONS) : MCTSNode :=
  { node_visits := 0
    virtual_loss := 0
    node_value_sum := 0
    action := List.replicate num_actions 0
    children_index := List.replicate num_actions 0
    children_value := List.replicate num_actions 0
    children_visits := List.replicate num_actions 0
    children_policy := List.replicate num_actions 0
    children_virtual_loss := List.replicate num_actions 0
    children_value_sum := List.replicate num_actions 0
    noise := List.replicate num_actions 0
    num_children := 0 }

/-- Embeds the loop body of `MCTSNode.set_policy`: walking the policy
map in iteration order, install `action[index] = pos` and
`children_policy[index] = policy`, advancing `index`. -/
def setPolicyGo (nd : MCTSNode) (index : ℕ) :
    List (ℤ × ℚ) → MCTSNode
  | [] => nd
  | (pos, policy) :: rest =>
      setPolicyGo
        { nd with
          action := nd.action.set index pos
          children_policy := nd.children_policy.set index policy }
        (index + 1) rest

/-- Embeds `MCTSNode.set_policy`: installs the map's entries in
iteration order and sets `num_children` to the final index.  A Python
`dict` is embedded as an association list in insertion order. -/
def MCTSNode.set_policy (nd : MCTSNode) (policy_map : List (ℤ × ℚ)) :
    MCTSNode :=
  { setPolicyGo nd 0 policy_map with num_children := policy_map.length }

/-- Embeds `MCTSNode.expand`: zeroes the aggregates, replaces `action`
by `MAX_ACTIONS` zeros, refills `children_index` with `NOT_EXPANDED` and
`children_value`, `children_visits`, `children_virtual_loss`,
`children_value_sum`, `noise` with zeros (each `fill` keeps its array's
own length, and `children_policy` is not refilled), then runs
`set_policy`. -/
def MCTSNode.expand (nd : MCTSNode) (policy : List (ℤ × ℚ)) : MCTSNode :=
  MCTSNode.set_policy
    { nd with
      node_visits := 0
      node_value_sum := 0
      virtual_loss := 0
      action := List.replicate MAX_ACTIONS 0
      children_index := List.replicate nd.children_index.length NOT_EXPANDED
      children_value := List.replicate nd.children_value.length 0
      children_visits := List.replicate nd.children_visits.length 0
      children_virtual_loss :=
        List.replicate nd.children_virtual_loss.length 0
      children_value_sum := List.replicate nd.children_value_sum.length 0
      noise := List.replicate nd.noise.length 0 }
    policy

/-- Embeds `MCTSNode.add_virtual_loss(index)`: `virtual_loss += 1` and
`children_virtual_loss[index] += 1`. -/
def MCTSNode.add_virtual_loss (nd : MCTSNode) (index : ℕ) : MCTSNode :=
  { nd with
    virtual_loss := nd.virtual_loss + 1
    children_virtual_loss :=
      nd.children_virtual_loss.set index
        (nd.children_virtual_loss.getD index 0 + 1) }

/-- Embeds the body of `MCTSNode.update_policy` as a loop over a list of
child indices: each step looks `action[i]` up in the map (a missing key
raises `KeyError`, embedded as `none`) and overwrites
`children_policy[i]`. -/
def updatePolicyGo (policy : List (ℤ × ℚ)) :
    List ℕ → MCTSNode → Option MCTSNode
  | [], nd => some nd
  | i :: rest, nd =>
      match policy.lookup (nd.action.getD i 0) with
      | none => none
      | some p =>
          updatePolicyGo policy rest
            { nd with children_policy := nd.children_policy.set i p }

/-- Embeds `MCTSNode.update_policy`: for `i in range(num_children)`,
`children_policy[i] = policy[action[i]]`; a missing key is a `KeyError`
(`none`). -/
def MCTSNode.update_policy (nd : MCTSNode) (policy : List (ℤ × ℚ)) :
    Option MCTSNode :=
  updatePolicyGo policy (List.range nd.num_children) nd

/-- Embeds `MCTSNode.set_leaf_value(index, value)`:
`children_value[index] = value`. -/
def MCTSNode.set_leaf_value (nd : MCTSNode) (index : ℕ) (value : ℚ) :
    MCTSNode :=
  { nd with children_value := nd.children_value.set index value }

/-- Embeds `MCTSNode.update_child_value(index, value)`:
`children_value_sum[index] += value`, `children_visits[index] += 1`,
`children_virtual_loss[index] -= 1`. -/
def MCTSNode.update_child_value (nd : MCTSNode) (index : ℕ) (value : ℚ) :
    MCTSNode :=
  { nd with
    children_value_sum :=
      nd.children_value_sum.set index
        (nd.children_value_sum.getD index 0 + value)
    children_visits :=
      nd.children_visits.set index (nd.children_visits.getD index 0 + 1)
    children_virtual_loss :=
      nd.children_virtual_loss.set index
        (nd.children_virtual_loss.getD index 0 - 1) }

/-- Embeds `MCTSNode.update_node_value(value)`:
`node_value_sum += value`, `node_visits += 1`, `virtual_loss -= 1`. -/
def MCTSNode.update_node_value (nd : MCTSNode) (value : ℚ) : MCTSNode :=
  { nd with
    node_value_sum := nd.node_value_sum + value
    node_visits := nd.node_visits + 1
    virtual_loss := nd.virtual_loss - 1 }

/-- Modelled from the spec: `mcts/pucb/pucb.py` is not in `src/`.  The
PUCB score of one child from §4.3 of the spec: an exploitation term —
the mean value `w / n` for a visited child, no division by zero for an
unvisited one — plus the exploration term
`PUCT_WEIGHT * p * sqrt(N) / (1 + n)`.  The square root of the parent
total is irrational in general, so the embedding passes its value as
the argument `sqrtN` (the intended instantiation has `sqrtN ≥ 0`). -/
def pucbScore (sqrtN : ℚ) (n : ℤ) (w p : ℚ) : ℚ :=
  (if n = 0 then 0 else w / (n : ℚ)) +
    PUCT_WEIGHT * p * sqrtN / (1 + (n : ℚ))

/-- The PUCB inputs of child `i`, exactly as `select_next_action` builds
them (src/mcts/node.py): child total `children_visits[i] +
children_virtual_loss[i]`, accumulated value `children_value_sum[i]`,
exploration weight `children_policy[i] + noise[i]`. -/
def MCTSNode.pucbScoreAt (nd : MCTSNode) (sqrtN : ℚ) (i : ℕ) : ℚ :=
  pucbScore sqrtN
    (nd.children_visits.getD i 0 + nd.children_virtual_loss.getD i 0)
    (nd.children_value_sum.getD i 0)
    (nd.children_policy.getD i 0 + nd.noise.getD i 0)

/-- The elementwise PUCB value array `calculate_pucb_value(...)` over
the full fixed-width arrays. -/
def MCTSNode.pucb_values (nd : MCTSNode) (sqrtN : ℚ) : List ℚ :=
  (List.range nd.children_visits.length).map (nd.pucbScoreAt sqrtN)

/-- Embeds `np.argmax`: the index of the first occurrence of the
maximal element; an empty array raises `ValueError` (`none`). -/
def argmaxList {α : Type} [LinearOrder α] : List α → Option ℕ
  | [] => none
  | x :: xs =>
      match argmaxList xs with
      | none => some 0
      | some j => if x < xs.getD j x then some (j + 1) else some 0

/-- Embeds `MCTSNode.select_next_action`: `np.argmax` of the PUCB
values restricted to the first `num_children` entries.  The square root
of `node_visits + virtual_loss` taken inside `calculate_pucb_value` is
passed by value as `sqrtN` (see `pucbScore`). -/
def MCTSNode.select_next_action (nd : MCTSNode) (sqrtN : ℚ) : Option ℕ :=
  argmaxList ((nd.pucb_values sqrtN).take nd.num_children)

/-- Embeds `MCTSNode.get_num_children`. -/
def MCTSNode.get_num_children (nd : MCTSNode) : ℕ := nd.num_children

/-- Embeds `MCTSNode.get_best_move_index`: `np.argmax` of
`children_visits[:num_children]`. -/
def MCTSNode.get_best_move_index (nd : MCTSNode) : Option ℕ :=
  argmaxList (nd.children_visits.take nd.num_children)

/-- Embeds `MCTSNode.get_best_move`: `action[get_best_move_index()]`. -/
def MCTSNode.get_best_move (nd : MCTSNode) : Option ℤ :=
  nd.get_best_move_index.map (fun j => nd.action.getD j 0)

/-- Embeds `MCTSNode.get_child_move(index)`. -/
def MCTSNode.get_child_move (nd : MCTSNode) (index : ℕ) : ℤ :=
  nd.action.getD index 0

/-- Embeds `MCTSNode.get_child_index(index)`. -/
def MCTSNode.get_child_index (nd : MCTSNode) (index : ℕ) : ℤ :=
  nd.children_index.getD index 0

/-- Embeds `MCTSNode.set_child_index(index, child_index)`. -/
def MCTSNode.set_child_index (nd : MCTSNode) (index : ℕ)
    (child_index : ℤ) : MCTSNode :=
  { nd with children_index := nd.children_index.set index child_index }

/-! ### Helper lemmas on `List.getD`, `List.set`, `List.take` -/

theorem getD_take_of_lt {α : Type} (l : List α) (n k : ℕ) (d : α)
    (h : k < n) : (l.take n).getD k d = l.getD k d := by
  simp [List.getD_eq_getElem?_getD, List.getElem?_take_of_lt h]

theorem getD_set_self {α : Type} (l : List α) (i : ℕ) (a d : α)
    (h : i < l.length) : (l.set i a).getD i d = a := by
  rw [List.getD_eq_getElem (l.set i a) d (by simpa using h)]
  simp

theorem getD_set_ne {α : Type} (l : List α) (i j : ℕ) (a d : α)
    (h : i ≠ j) : (l.set i a).getD j d = l.getD j d := by
  simp [List.getD_eq_getElem?_getD, List.getElem?_set_ne h]

theorem getD_default_indep {α : Type} (l : List α) (k : ℕ) (d d' : α)
    (h : k < l.length) : l.getD k d = l.getD k d' := by
  rw [List.getD_eq_getElem l d h, List.getD_eq_getElem l d' h]

theorem getD_replicate {α : Type} (n k : ℕ) (a d : α) (h : k < n) :
    (List.replicate n a).getD k d = a := by
  rw [List.getD_eq_getElem _ d (by simpa using h)]
  simp

/-! ### The first-occurrence argmax -/

theorem argmaxList_eq_none_iff {α : Type} [LinearOrder α] (l : List α) :
    argmaxList l = none ↔ l = [] := by
  cases l with
  | nil => simp [argmaxList]
  | cons x xs =>
      simp only [argmaxList]
      cases hm : argmaxList xs with
      | none => simp
      | some j => simp only []; split <;> simp

/-- `argmaxList` returns an in-range index `j` whose element is maximal
and strictly exceeds every element to its left (first occurrence of the
maximum, as `np.argmax` computes). -/
theorem argmaxList_spec {α : Type} [LinearOrder α] (d : α) (l : List α) :
    ∀ j : ℕ, argmaxList l = some j →
      j < l.length ∧ (∀ k, k < l.length → l.getD k d ≤ l.getD j d) ∧
        ∀ k, k < j → l.getD k d < l.getD j d := by
  induction l with
  | nil => intro j h; simp [argmaxList] at h
  | cons x xs ih =>
      intro j h
      simp only [argmaxList] at h
      cases hm : argmaxList xs with
      | none =>
          have hxs : xs = [] := (argmaxList_eq_none_iff xs).mp hm
          subst hxs
          simp only [argmaxList] at h
          have hj : j = 0 := by
            cases h; rfl
          subst hj
          refine ⟨by simp, ?_, ?_⟩
          · intro k hk
            have : k = 0 := by simpa using Nat.lt_one_iff.mp (by simpa using hk)
            subst this; exact le_refl _
          · intro k hk; exact absurd hk (Nat.not_lt_zero k)
      | some j' =>
          rw [hm] at h
          dsimp only at h
          obtain ⟨hj', hmax, hfirst⟩ := ih j' hm
          have hdx : xs.getD j' x = xs.getD j' d := getD_default_indep xs j' x d hj'
          have hcmpiff : x < xs.getD j' x ↔ x < xs.getD j' d := by
            rw [hdx]
          by_cases hcmp : x < xs.getD j' x
          · rw [if_pos hcmp] at h
            have hj : j = j' + 1 := by cases h; rfl
            subst hj
            refine ⟨by simpa using hj', ?_, ?_⟩
            · intro k hk
              cases k with
              | zero =>
                  simpa using le_of_lt (hcmpiff.mp hcmp)
              | succ k =>
                  simpa using hmax k (by simpa using hk)
            · intro k hk
              cases k with
              | zero =>
                  simpa using hcmpiff.mp hcmp
              | succ k =>
                  simpa using hfirst k (by omega)
          · rw [if_neg hcmp] at h
            have hj : j = 0 := by cases h; rfl
            subst hj
            refine ⟨by simp, ?_, ?_⟩
            · intro k hk
              cases k with
              | zero => simp
              | succ k =>
                  have h1 : xs.getD k d ≤ xs.getD j' d :=
                    hmax k (by simpa using hk)
                  have h2 : xs.getD j' d ≤ x := not_lt.mp (fun hc => hcmp (hcmpiff.mpr hc))
                  simpa using le_trans h1 h2
            · intro k hk; exact absurd hk (Nat.not_lt_zero k)

theorem argmaxList_isSome {α : Type} [LinearOrder α] (l : List α)
    (h : l ≠ []) : ∃ j, argmaxList l = some j := by
  cases hm : argmaxList l with
  | none => exact absurd ((argmaxList_eq_none_iff l).mp hm) h
  | some j => exact ⟨j, rfl⟩

/-! ### Claim C1 -/

/-- C1: `add_virtual_loss(i)` increments `virtual_loss` and
`children_virtual_loss[i]` each by exactly 1; a subsequent
`update_child_value(i, v)` restores `children_virtual_loss[i]` to its
pre-call value while incrementing `children_visits[i]` by 1 and
`children_value_sum[i]` by `v`; symmetrically `update_node_value(v)`
adds `v` to `node_value_sum`, increments `node_visits` by 1 and
decrements `virtual_loss` by 1, so the add/update pair leaves both
virtual-loss counters at their original values. -/
theorem claim_C1 (nd : MCTSNode) (i : ℕ) (v : ℚ)
    (h1 : i < nd.children_virtual_loss.length)
    (h2 : i < nd.children_visits.length)
    (h3 : i < nd.children_value_sum.length) :
    (nd.add_virtual_loss i).virtual_loss = nd.virtual_loss + 1 ∧
    (nd.add_virtual_loss i).children_virtual_loss.getD i 0 =
      nd.children_virtual_loss.getD i 0 + 1 ∧
    ((nd.add_virtual_loss i).update_child_value i v).children_virtual_loss.getD i 0 =
      nd.children_virtual_loss.getD i 0 ∧
    ((nd.add_virtual_loss i).update_child_value i v).children_visits.getD i 0 =
      nd.children_visits.getD i 0 + 1 ∧
    ((nd.add_virtual_loss i).update_child_value i v).children_value_sum.getD i 0 =
      nd.children_value_sum.getD i 0 + v ∧
    (nd.update_node_value v).node_value_sum = nd.node_value_sum + v ∧
    (nd.update_node_value v).node_visits = nd.node_visits + 1 ∧
    (nd.update_node_value v).virtual_loss = nd.virtual_loss - 1 ∧
    ((nd.add_virtual_loss i).update_node_value v).virtual_loss =
      nd.virtual_loss := by
  have hg1 : (nd.children_virtual_loss.set i
      (nd.children_virtual_loss.getD i 0 + 1)).getD i 0 =
      nd.children_virtual_loss.getD i 0 + 1 :=
    getD_set_self _ i _ 0 h1
  refine ⟨rfl, hg1, ?_, ?_, ?_, rfl, rfl, rfl, ?_⟩
  · dsimp only [MCTSNode.update_child_value, MCTSNode.add_virtual_loss]
    rw [getD_set_self _ i _ 0 (by simpa using h1), hg1]
    ring
  · dsimp only [MCTSNode.update_child_value, MCTSNode.add_virtual_loss]
    rw [getD_set_self _ i _ 0 h2]
  · dsimp only [MCTSNode.update_child_value, MCTSNode.add_virtual_loss]
    rw [getD_set_self _ i _ 0 h3]
  · show nd.virtual_loss + 1 - 1 = nd.virtual_loss
    ring

/-- Witness for C1 at a concrete two-slot node, index 0, value 1. -/
theorem claim_C1_witness :
    0 < (MCTSNode.init 2).children_virtual_loss.length ∧
    (((MCTSNode.init 2).add_virtual_loss 0).update_child_value 0 1).children_virtual_loss.getD 0 0 =
      (MCTSNode.init 2).children_virtual_loss.getD 0 0 ∧
    (((MCTSNode.init 2).add_virtual_loss 0).update_child_value 0 1).children_visits.getD 0 0 =
      (MCTSNode.init 2).children_visits.getD 0 0 + 1 ∧
    (((MCTSNode.init 2).add_virtual_loss 0).update_node_value 1).virtual_loss =
      (MCTSNode.init 2).virtual_loss :=
  ⟨by decide,
    (claim_C1 (MCTSNode.init 2) 0 1 (by decide) (by decide) (by decide)).2.2.1,
    (claim_C1 (MCTSNode.init 2) 0 1 (by decide) (by decide) (by decide)).2.2.2.1,
    (claim_C1 (MCTSNode.init 2) 0 1 (by decide) (by decide) (by decide)).2.2.2.2.2.2.2.2⟩

/-! ### Claim C2 -/

/-- C2: for `moves < MAX_RECORDS`, `save` then `get` at that index
returns exactly the saved triple (and no error is reported); for
`moves ≥ MAX_RECORDS`, `save` leaves the ledger unchanged and reports a
non-fatal error. -/
theorem claim_C2 (r : Record) (moves : ℕ) (c : Stone) (p : ℤ)
    (h : Fin (2 ^ 64)) (hr : r.WF) :
    (moves < MAX_RECORDS →
      (r.save moves c p h).1.get moves = (c, p, h) ∧
        (r.save moves c p h).2 = false) ∧
    (MAX_RECORDS ≤ moves →
      (r.save moves c p h).1 = r ∧ (r.save moves c p h).2 = true) := by
  obtain ⟨hc, hp, hh⟩ := hr
  constructor
  · intro hlt
    rw [Record.save, if_pos hlt]
    refine ⟨?_, rfl⟩
    show (r.color.set moves c |>.getD moves Stone.EMPTY,
      r.pos.set moves p |>.getD moves PASS,
      r.hash_value.set moves h |>.getD moves 0) = (c, p, h)
    rw [getD_set_self _ moves _ _ (by omega),
      getD_set_self _ moves _ _ (by omega),
      getD_set_self _ moves _ _ (by omega)]
  · intro hge
    rw [Record.save, if_neg (by omega)]
    exact ⟨rfl, rfl⟩

/-- Witness for C2 on a fresh ledger: save at move 0 (in range) and at
move `MAX_RECORDS` (out of range). -/
theorem claim_C2_witness :
    ((0 < MAX_RECORDS →
      (Record.init.save 0 Stone.BLACK 4 0xABC).1.get 0 = (Stone.BLACK, 4, 0xABC) ∧
        (Record.init.save 0 Stone.BLACK 4 0xABC).2 = false) ∧
      (MAX_RECORDS ≤ 0 →
        (Record.init.save 0 Stone.BLACK 4 0xABC).1 = Record.init ∧
          (Record.init.save 0 Stone.BLACK 4 0xABC).2 = true)) ∧
    ((MAX_RECORDS < MAX_RECORDS →
      (Record.init.save MAX_RECORDS Stone.WHITE 5 0xDEF).1.get MAX_RECORDS =
        (Stone.WHITE, 5, 0xDEF) ∧
        (Record.init.save MAX_RECORDS Stone.WHITE 5 0xDEF).2 = false) ∧
      (MAX_RECORDS ≤ MAX_RECORDS →
        (Record.init.save MAX_RECORDS Stone.WHITE 5 0xDEF).1 = Record.init ∧
          (Record.init.save MAX_RECORDS Stone.WHITE 5 0xDEF).2 = true)) :=
  ⟨claim_C2 Record.init 0 Stone.BLACK 4 0xABC Record.init_WF,
    claim_C2 Record.init MAX_RECORDS Stone.WHITE 5 0xDEF Record.init_WF⟩

/-! ### Behaviour of the `set_policy` loop -/

theorem setPolicyGo_aggregates (pm : List (ℤ × ℚ)) :
    ∀ (nd : MCTSNode) (i : ℕ),
      (setPolicyGo nd i pm).node_visits = nd.node_visits ∧
      (setPolicyGo nd i pm).virtual_loss = nd.virtual_loss ∧
      (setPolicyGo nd i pm).node_value_sum = nd.node_value_sum ∧
      (setPolicyGo nd i pm).children_index = nd.children_index ∧
      (setPolicyGo nd i pm).children_value = nd.children_value ∧
      (setPolicyGo nd i pm).children_visits = nd.children_visits ∧
      (setPolicyGo nd i pm).children_virtual_loss = nd.children_virtual_loss ∧
      (setPolicyGo nd i pm).children_value_sum = nd.children_value_sum ∧
      (setPolicyGo nd i pm).noise = nd.noise ∧
      (setPolicyGo nd i pm).num_children = nd.num_children := by
  induction pm with
  | nil => intro nd i; simp [setPolicyGo]
  | cons hd tl ih =>
      intro nd i
      obtain ⟨p, q⟩ := hd
      simpa [setPolicyGo] using ih _ (i + 1)

theorem setPolicyGo_lengths (pm : List (ℤ × ℚ)) :
    ∀ (nd : MCTSNode) (i : ℕ),
      (setPolicyGo nd i pm).action.length = nd.action.length ∧
      (setPolicyGo nd i pm).children_policy.length =
        nd.children_policy.length := by
  induction pm with
  | nil => intro nd i; simp [setPolicyGo]
  | cons hd tl ih =>
      intro nd i
      obtain ⟨p, q⟩ := hd
      have hrec := ih
        { nd with
          action := nd.action.set i p
          children_policy := nd.children_policy.set i q } (i + 1)
      simpa [setPolicyGo] using hrec

theorem setPolicyGo_getD_lt (pm : List (ℤ × ℚ)) :
    ∀ (nd : MCTSNode) (i k : ℕ) (dA : ℤ) (dP : ℚ), k < i →
      (setPolicyGo nd i pm).action.getD k dA = nd.action.getD k dA ∧
      (setPolicyGo nd i pm).children_policy.getD k dP =
        nd.children_policy.getD k dP := by
  induction pm with
  | nil => intro nd i k dA dP _; simp [setPolicyGo]
  | cons hd tl ih =>
      intro nd i k dA dP hk
      obtain ⟨p, q⟩ := hd
      have hne : i ≠ k := by omega
      obtain ⟨ha, hp⟩ := ih
        { nd with
          action := nd.action.set i p
          children_policy := nd.children_policy.set i q }
        (i + 1) k dA dP (by omega)
      refine ⟨?_, ?_⟩
      · rw [show (setPolicyGo nd i ((p, q) :: tl)) = setPolicyGo
          { nd with
            action := nd.action.set i p
            children_policy := nd.children_policy.set i q } (i + 1) tl
          from rfl, ha]
        exact getD_set_ne _ i k _ _ hne
      · rw [show (setPolicyGo nd i ((p, q) :: tl)) = setPolicyGo
          { nd with
            action := nd.action.set i p
            children_policy := nd.children_policy.set i q } (i + 1) tl
          from rfl, hp]
        exact getD_set_ne _ i k _ _ hne

theorem setPolicyGo_getD_ge (pm : List (ℤ × ℚ)) :
    ∀ (nd : MCTSNode) (i k : ℕ) (dA : ℤ) (dP : ℚ), i + pm.length ≤ k →
      (setPolicyGo nd i pm).action.getD k dA = nd.action.getD k dA ∧
      (setPolicyGo nd i pm).children_policy.getD k dP =
        nd.children_policy.getD k dP := by
  induction pm with
  | nil => intro nd i k dA dP _; simp [setPolicyGo]
  | cons hd tl ih =>
      intro nd i k dA dP hk
      obtain ⟨p, q⟩ := hd
      have hne : i ≠ k := by simp at hk; omega
      obtain ⟨ha, hp⟩ := ih
        { nd with
          action := nd.action.set i p
          children_policy := nd.children_policy.set i q }
        (i + 1) k dA dP (by simp at hk; omega)
      refine ⟨?_, ?_⟩
      · rw [show (setPolicyGo nd i ((p, q) :: tl)) = setPolicyGo
          { nd with
            action := nd.action.set i p
            children_policy := nd.children_policy.set i q } (i + 1) tl
          from rfl, ha]
        exact getD_set_ne _ i k _ _ hne
      · rw [show (setPolicyGo nd i ((p, q) :: tl)) = setPolicyGo
          { nd with
            action := nd.action.set i p
            children_policy := nd.children_policy.set i q } (i + 1) tl
          from rfl, hp]
        exact getD_set_ne _ i k _ _ hne

theorem setPolicyGo_install (pm : List (ℤ × ℚ)) :
    ∀ (nd : MCTSNode) (i k : ℕ) (hk : k < pm.length) (dA : ℤ) (dP : ℚ),
      i + pm.length ≤ nd.action.length →
      i + pm.length ≤ nd.children_policy.length →
      (setPolicyGo nd i pm).action.getD (i + k) dA = (pm.get ⟨k, hk⟩).1 ∧
      (setPolicyGo nd i pm).children_policy.getD (i + k) dP =
        (pm.get ⟨k, hk⟩).2 := by
  induction pm with
  | nil => intro nd i k hk; simp at hk
  | cons hd tl ih =>
      intro nd i k hk dA dP hA hP
      obtain ⟨p, q⟩ := hd
      have hstep : setPolicyGo nd i ((p, q) :: tl) = setPolicyGo
          { nd with
            action := nd.action.set i p
            children_policy := nd.children_policy.set i q } (i + 1) tl :=
        rfl
      cases k with
      | zero =>
          obtain ⟨ha, hp⟩ := setPolicyGo_getD_lt tl
            { nd with
              action := nd.action.set i p
              children_policy := nd.children_policy.set i q }
            (i + 1) i dA dP (by omega)
          refine ⟨?_, ?_⟩
          · rw [Nat.add_zero, hstep, ha]
            exact getD_set_self _ i _ _ (by simp at hA; omega)
          · rw [Nat.add_zero, hstep, hp]
            exact getD_set_self _ i _ _ (by simp at hP; omega)
      | succ k =>
          have hk' : k < tl.length := by
            simp only [List.length_cons] at hk
            omega
          have hA' : i + 1 + tl.length ≤ (nd.action.set i p).length := by
            simp only [List.length_set]
            simp only [List.length_cons] at hA
            omega
          have hP' : i + 1 + tl.length ≤
              (nd.children_policy.set i q).length := by
            simp only [List.length_set]
            simp only [List.length_cons] at hP
            omega
          obtain ⟨ha, hp⟩ := ih
            { nd with
              action := nd.action.set i p
              children_policy := nd.children_policy.set i q }
            (i + 1) k hk' dA dP hA' hP'
          refine ⟨?_, ?_⟩
          · rw [show i + (k + 1) = i + 1 + k by omega, hstep, ha]
            rfl
          · rw [show i + (k + 1) = i + 1 + k by omega, hstep, hp]
            rfl

theorem getD_replicate_self {α : Type} (n k : ℕ) (a : α) :
    (List.replicate n a).getD k a = a := by
  rcases Nat.lt_or_ge k n with h | h
  · exact getD_replicate n k a a h
  · exact List.getD_eq_default _ _ (by simpa using h)

theorem expand_aggregates (nd : MCTSNode) (policy : List (ℤ × ℚ)) :
    (nd.expand policy).node_visits = 0 ∧
    (nd.expand policy).node_value_sum = 0 ∧
    (nd.expand policy).virtual_loss = 0 ∧
    (nd.expand policy).children_index =
      List.replicate nd.children_index.length NOT_EXPANDED ∧
    (nd.expand policy).children_value =
      List.replicate nd.children_value.length 0 ∧
    (nd.expand policy).children_visits =
      List.replicate nd.children_visits.length 0 ∧
    (nd.expand policy).children_virtual_loss =
      List.replicate nd.children_virtual_loss.length 0 ∧
    (nd.expand policy).children_value_sum =
      List.replicate nd.children_value_sum.length 0 ∧
    (nd.expand policy).noise = List.replicate nd.noise.length 0 := by
  obtain ⟨h1, h2, h3, h4, h5, h6, h7, h8, h9, _⟩ :=
    setPolicyGo_aggregates policy
      { nd with
        node_visits := 0
        node_value_sum := 0
        virtual_loss := 0
        action := List.replicate MAX_ACTIONS 0
        children_index :=
          List.replicate nd.children_index.length NOT_EXPANDED
        children_value := List.replicate nd.children_value.length 0
        children_visits := List.replicate nd.children_visits.length 0
        children_virtual_loss :=
          List.replicate nd.children_virtual_loss.length 0
        children_value_sum :=
          List.replicate nd.children_value_sum.length 0
        noise := List.replicate nd.noise.length 0 } 0
  exact ⟨h1, h3, h2, h4, h5, h6, h7, h8, h9⟩

theorem expand_lengths (nd : MCTSNode) (policy : List (ℤ × ℚ)) :
    (nd.expand policy).action.length = MAX_ACTIONS ∧
    (nd.expand policy).children_policy.length =
      nd.children_policy.length := by
  obtain ⟨h1, h2⟩ := setPolicyGo_lengths policy
    { nd with
      node_visits := 0
      node_value_sum := 0
      virtual_loss := 0
      action := List.replicate MAX_ACTIONS 0
      children_index :=
        List.replicate nd.children_index.length NOT_EXPANDED
      children_value := List.replicate nd.children_value.length 0
      children_visits := List.replicate nd.children_visits.length 0
      children_virtual_loss :=
        List.replicate nd.children_virtual_loss.length 0
      children_value_sum :=
        List.replicate nd.children_value_sum.length 0
      noise := List.replicate nd.noise.length 0 } 0
  constructor
  · rw [show (nd.expand policy).action.length = _ from h1]
    simp
  · exact h2

theorem expand_installs (nd : MCTSNode) (policy : List (ℤ × ℚ))
    (hA : policy.length ≤ MAX_ACTIONS)
    (hP : policy.length ≤ nd.children_policy.length) :
    ∀ (k : ℕ) (hk : k < policy.length),
      (nd.expand policy).action.getD k 0 = (policy.get ⟨k, hk⟩).1 ∧
      (nd.expand policy).children_policy.getD k 0 =
        (policy.get ⟨k, hk⟩).2 := by
  intro k hk
  have := setPolicyGo_install policy
    { nd with
      node_visits := 0
      node_value_sum := 0
      virtual_loss := 0
      action := List.replicate MAX_ACTIONS 0
      children_index :=
        List.replicate nd.children_index.length NOT_EXPANDED
      children_value := List.replicate nd.children_value.length 0
      children_visits := List.replicate nd.children_visits.length 0
      children_virtual_loss :=
        List.replicate nd.children_virtual_loss.length 0
      children_value_sum :=
        List.replicate nd.children_value_sum.length 0
      noise := List.replicate nd.noise.length 0 } 0 k hk 0 0
    (by simpa using hA) (by simpa using hP)
  simpa using this

theorem expand_policy_retained (nd : MCTSNode) (policy : List (ℤ × ℚ)) :
    ∀ k, policy.length ≤ k →
      (nd.expand policy).children_policy.getD k 0 =
        nd.children_policy.getD k 0 := by
  intro k hk
  have := setPolicyGo_getD_ge policy
    { nd with
      node_visits := 0
      node_value_sum := 0
      virtual_loss := 0
      action := List.replicate MAX_ACTIONS 0
      children_index :=
        List.replicate nd.children_index.length NOT_EXPANDED
      children_value := List.replicate nd.children_value.length 0
      children_visits := List.replicate nd.children_visits.length 0
      children_virtual_loss :=
        List.replicate nd.children_virtual_loss.length 0
      children_value_sum :=
        List.replicate nd.children_value_sum.length 0
      noise := List.replicate nd.noise.length 0 } 0 k 0 0
    (by simpa using hk)
  exact this.2

/-! ### Claim C3 (corrected) -/

/-- Counterexample to C3 as stated: a node constructed with 3 slots is
expanded with two children of policy `1/2`, then re-expanded with a
single child.  Slot 1 is not installed from the new policy map, yet its
`children_policy` entry still holds `1/2` — `expand` never refills
`children_policy`, so stale priors survive re-expansion. -/
theorem claim_C3_counterexample :
    (((MCTSNode.init 3).expand [(10, 1/2), (20, 1/2)]).expand
        [(30, 1)]).num_children = 1 ∧
    (((MCTSNode.init 3).expand [(10, 1/2), (20, 1/2)]).expand
        [(30, 1)]).children_policy.getD 1 0 = 1/2 ∧
    ((1 : ℚ)/2) ≠ 0 := by
  refine ⟨rfl, ?_, by norm_num⟩
  have h1 : (((MCTSNode.init 3).expand [(10, 1/2), (20, 1/2)]).expand
      [(30, 1)]).children_policy.getD 1 0 =
      ((MCTSNode.init 3).expand
        [(10, 1/2), (20, 1/2)]).children_policy.getD 1 0 :=
    expand_policy_retained _ _ 1 (by norm_num)
  have h2 := (expand_installs (MCTSNode.init 3) [(10, 1/2), (20, 1/2)]
    (by norm_num [MAX_ACTIONS, BOARD_SIZE]) (by norm_num [MCTSNode.init])
    1 (by norm_num)).2
  rw [h1, h2]
  rfl

/-- C3 as amended: after `expand(policy_map)` with
`|policy_map| ≤ MAX_ACTIONS`, the node is freshly expanded —
`num_children = |policy_map|`, actions and policies installed in map
order, aggregates zero, every `children_index` slot holds the
unexpanded sentinel, and `children_value`, `children_visits`,
`children_virtual_loss`, `children_value_sum` and `noise` are zero
everywhere — but the `children_policy` entries at slots not installed
from the map retain their previous values (they are not zeroed). -/
theorem claim_C3 (nd : MCTSNode) (policy : List (ℤ × ℚ))
    (hA : policy.length ≤ MAX_ACTIONS)
    (hP : policy.length ≤ nd.children_policy.length) :
    (nd.expand policy).num_children = policy.length ∧
    (nd.expand policy).node_visits = 0 ∧
    (nd.expand policy).node_value_sum = 0 ∧
    (nd.expand policy).virtual_loss = 0 ∧
    (∀ (k : ℕ) (hk : k < policy.length),
      (nd.expand policy).action.getD k 0 = (policy.get ⟨k, hk⟩).1 ∧
      (nd.expand policy).children_policy.getD k 0 =
        (policy.get ⟨k, hk⟩).2) ∧
    (∀ k, k < nd.children_index.length →
      (nd.expand policy).children_index.getD k 0 = NOT_EXPANDED) ∧
    (∀ k, (nd.expand policy).children_value.getD k 0 = 0) ∧
    (∀ k, (nd.expand policy).children_visits.getD k 0 = 0) ∧
    (∀ k, (nd.expand policy).children_virtual_loss.getD k 0 = 0) ∧
    (∀ k, (nd.expand policy).children_value_sum.getD k 0 = 0) ∧
    (∀ k, (nd.expand policy).noise.getD k 0 = 0) ∧
    (∀ k, policy.length ≤ k →
      (nd.expand policy).children_policy.getD k 0 =
        nd.children_policy.getD k 0) := by
  obtain ⟨h1, h2, h3, h4, h5, h6, h7, h8, h9⟩ := expand_aggregates nd policy
  refine ⟨rfl, h1, h2, h3, expand_installs nd policy hA hP, ?_, ?_, ?_,
    ?_, ?_, ?_, expand_policy_retained nd policy⟩
  · intro k hk
    rw [h4]
    exact getD_replicate _ _ _ _ hk
  · intro k; rw [h5]; exact getD_replicate_self _ _ _
  · intro k; rw [h6]; exact getD_replicate_self _ _ _
  · intro k; rw [h7]; exact getD_replicate_self _ _ _
  · intro k; rw [h8]; exact getD_replicate_self _ _ _
  · intro k; rw [h9]; exact getD_replicate_self _ _ _

/-- Witness for C3 (amended) on a freshly constructed node expanded
with a two-entry map. -/
theorem claim_C3_witness :
    ((MCTSNode.init 3).expand [(10, 1/2), (20, 1/2)]).num_children = 2 ∧
    ((MCTSNode.init 3).expand [(10, 1/2), (20, 1/2)]).node_visits = 0 ∧
    (∀ k, ((MCTSNode.init 3).expand
      [(10, 1/2), (20, 1/2)]).noise.getD k 0 = 0) ∧
    (∀ k, (2 : ℕ) ≤ k →
      ((MCTSNode.init 3).expand
          [(10, 1/2), (20, 1/2)]).children_policy.getD k 0 =
        (MCTSNode.init 3).children_policy.getD k 0) :=
  ⟨(claim_C3 (MCTSNode.init 3) [(10, 1/2), (20, 1/2)] (by norm_num
      [MAX_ACTIONS, BOARD_SIZE]) (by norm_num [MCTSNode.init])).1,
    (claim_C3 (MCTSNode.init 3) [(10, 1/2), (20, 1/2)] (by norm_num
      [MAX_ACTIONS, BOARD_SIZE]) (by norm_num [MCTSNode.init])).2.1,
    (claim_C3 (MCTSNode.init 3) [(10, 1/2), (20, 1/2)] (by norm_num
      [MAX_ACTIONS, BOARD_SIZE]) (by norm_num [MCTSNode.init])).2.2.2.2.2.2.2.2.2.2.1,
    (claim_C3 (MCTSNode.init 3) [(10, 1/2), (20, 1/2)] (by norm_num
      [MAX_ACTIONS, BOARD_SIZE]) (by norm_num [MCTSNode.init])).2.2.2.2.2.2.2.2.2.2.2⟩

/-! ### Claim C4 -/

/-- C4: after `expand({A: 0.4, B: 0.6})`, `num_children == 2`, the
(action, policy) pairs sit at slots 0 and 1 in the map's insertion
order, and `node_visits == 0`. -/
theorem claim_C4 (nd : MCTSNode) (A B : ℤ)
    (h2 : 2 ≤ nd.children_policy.length) :
    (nd.expand [(A, 0.4), (B, 0.6)]).num_children = 2 ∧
    (nd.expand [(A, 0.4), (B, 0.6)]).action.getD 0 0 = A ∧
    (nd.expand [(A, 0.4), (B, 0.6)]).children_policy.getD 0 0 = 0.4 ∧
    (nd.expand [(A, 0.4), (B, 0.6)]).action.getD 1 0 = B ∧
    (nd.expand [(A, 0.4), (B, 0.6)]).children_policy.getD 1 0 = 0.6 ∧
    (nd.expand [(A, 0.4), (B, 0.6)]).node_visits = 0 := by
  have hA : ([(A, (0.4 : ℚ)), (B, 0.6)]).length ≤ MAX_ACTIONS := by
    norm_num [MAX_ACTIONS, BOARD_SIZE]
  have hP : ([(A, (0.4 : ℚ)), (B, 0.6)]).length ≤
      nd.children_policy.length := by simpa using h2
  obtain ⟨ha0, hp0⟩ :=
    expand_installs nd [(A, 0.4), (B, 0.6)] hA hP 0 (by norm_num)
  obtain ⟨ha1, hp1⟩ :=
    expand_installs nd [(A, 0.4), (B, 0.6)] hA hP 1 (by norm_num)
  exact ⟨rfl, ha0, hp0, ha1, hp1, (expand_aggregates nd _).1⟩

/-- Witness for C4 on a freshly constructed node. -/
theorem claim_C4_witness :
    ((MCTSNode.init 3).expand [(10, 0.4), (20, 0.6)]).num_children = 2 ∧
    ((MCTSNode.init 3).expand [(10, 0.4), (20, 0.6)]).action.getD 0 0 = 10 ∧
    ((MCTSNode.init 3).expand
      [(10, 0.4), (20, 0.6)]).children_policy.getD 0 0 = 0.4 ∧
    ((MCTSNode.init 3).expand [(10, 0.4), (20, 0.6)]).action.getD 1 0 = 20 ∧
    ((MCTSNode.init 3).expand
      [(10, 0.4), (20, 0.6)]).children_policy.getD 1 0 = 0.6 ∧
    ((MCTSNode.init 3).expand [(10, 0.4), (20, 0.6)]).node_visits = 0 :=
  claim_C4 (MCTSNode.init 3) 10 20 (by norm_num [MCTSNode.init])

/-! ### Selection: PUCB values, argmax over the active prefix -/

theorem pucb_values_length (nd : MCTSNode) (s : ℚ) :
    (nd.pucb_values s).length = nd.children_visits.length := by
  simp [MCTSNode.pucb_values]

theorem pucb_values_getD (nd : MCTSNode) (s : ℚ) (k : ℕ)
    (hk : k < nd.children_visits.length) :
    (nd.pucb_values s).getD k 0 = nd.pucbScoreAt s k := by
  unfold MCTSNode.pucb_values
  rw [List.getD_eq_getElem _ _ (by simpa using hk)]
  simp

theorem select_next_action_spec (nd : MCTSNode) (s : ℚ)
    (h1 : 1 ≤ nd.num_children)
    (h2 : nd.num_children ≤ nd.children_visits.length) :
    ∃ j, nd.select_next_action s = some j ∧ j < nd.num_children ∧
      (∀ k, k < nd.num_children →
        nd.pucbScoreAt s k ≤ nd.pucbScoreAt s j) ∧
      ∀ k, k < j → nd.pucbScoreAt s k < nd.pucbScoreAt s j := by
  have hlen : ((nd.pucb_values s).take nd.num_children).length =
      nd.num_children := by
    rw [List.length_take, pucb_values_length]
    omega
  have hne : (nd.pucb_values s).take nd.num_children ≠ [] := by
    intro hemp
    rw [hemp] at hlen
    simp at hlen
    omega
  obtain ⟨j, hj⟩ := argmaxList_isSome _ hne
  obtain ⟨hjlen, hmax, hfirst⟩ := argmaxList_spec 0 _ j hj
  rw [hlen] at hjlen
  have hgetD : ∀ k, k < nd.num_children →
      ((nd.pucb_values s).take nd.num_children).getD k 0 =
        nd.pucbScoreAt s k := by
    intro k hk
    rw [getD_take_of_lt _ _ _ _ hk, pucb_values_getD nd s k (by omega)]
  refine ⟨j, hj, hjlen, ?_, ?_⟩
  · intro k hk
    have := hmax k (by rw [hlen]; exact hk)
    rwa [hgetD k hk, hgetD j hjlen] at this
  · intro k hk
    have := hfirst k hk
    rwa [hgetD k (by omega), hgetD j hjlen] at this

theorem expand_scoreAt (nd : MCTSNode) (policy : List (ℤ × ℚ)) (s : ℚ)
    (hA : policy.length ≤ MAX_ACTIONS)
    (hP : policy.length ≤ nd.children_policy.length)
    (k : ℕ) (hk : k < policy.length) :
    (nd.expand policy).pucbScoreAt s k =
      pucbScore s 0 0 (policy.get ⟨k, hk⟩).2 := by
  obtain ⟨_, _, _, _, _, h6, h7, h8, h9⟩ := expand_aggregates nd policy
  unfold MCTSNode.pucbScoreAt
  rw [h6, h7, h8, h9, (expand_installs nd policy hA hP k hk).2,
    getD_replicate_self, getD_replicate_self, getD_replicate_self,
    getD_replicate_self]
  norm_num

/-! ### Claim C5 -/

/-- C5: `select_next_action` is a pure deterministic function of the
node's statistics: it scores the children with `pucbScoreAt` (built
from `node_visits + virtual_loss` via `sqrtN`, the per-child totals
`children_visits[i] + children_virtual_loss[i]`,
`children_value_sum[i]` and `children_policy[i] + noise[i]`), considers
only the first `num_children` outputs and returns the lowest index
attaining the maximal score; on a freshly expanded two-child node with
equal policy and zero visits it returns index 0. -/
theorem claim_C5 :
    (∀ (nd : MCTSNode) (s : ℚ), 1 ≤ nd.num_children →
      nd.num_children ≤ nd.children_visits.length →
      ∃ j, nd.select_next_action s = some j ∧ j < nd.num_children ∧
        (∀ k, k < nd.num_children →
          nd.pucbScoreAt s k ≤ nd.pucbScoreAt s j) ∧
        ∀ k, k < j → nd.pucbScoreAt s k < nd.pucbScoreAt s j) ∧
    ∀ (nd : MCTSNode) (s : ℚ) (A B : ℤ) (p : ℚ),
      2 ≤ nd.children_visits.length →
      2 ≤ nd.children_policy.length →
      (nd.expand [(A, p), (B, p)]).select_next_action s = some 0 := by
  refine ⟨select_next_action_spec, ?_⟩
  intro nd s A B p hv hp
  have hA : ([(A, p), (B, p)]).length ≤ MAX_ACTIONS := by
    norm_num [MAX_ACTIONS, BOARD_SIZE]
  have hP : ([(A, p), (B, p)]).length ≤ nd.children_policy.length := by
    simpa using hp
  have hnum : (nd.expand [(A, p), (B, p)]).num_children = 2 := rfl
  have hvis : (nd.expand [(A, p), (B, p)]).children_visits.length =
      nd.children_visits.length := by
    rw [(expand_aggregates nd _).2.2.2.2.2.1]
    simp
  obtain ⟨j, hsel, hjlt, _, hfirst⟩ :=
    select_next_action_spec (nd.expand [(A, p), (B, p)]) s
      (by omega) (by omega)
  have heq : (nd.expand [(A, p), (B, p)]).pucbScoreAt s 0 =
      (nd.expand [(A, p), (B, p)]).pucbScoreAt s 1 := by
    rw [expand_scoreAt nd _ s hA hP 0 (by norm_num),
      expand_scoreAt nd _ s hA hP 1 (by norm_num)]
    rfl
  rw [hnum] at hjlt
  interval_cases j
  · exact hsel
  · exact absurd (hfirst 0 (by norm_num)) (by rw [heq]; exact lt_irrefl _)

/-- Witness for C5: a concrete three-slot node expanded with two equal
priors; both conjuncts applied at it. -/
theorem claim_C5_witness :
    (∃ j, ((MCTSNode.init 3).expand
        [(5, 1/4), (7, 1/4)]).select_next_action 0 = some j ∧
      j < ((MCTSNode.init 3).expand [(5, 1/4), (7, 1/4)]).num_children ∧
      (∀ k, k < ((MCTSNode.init 3).expand
          [(5, 1/4), (7, 1/4)]).num_children →
        ((MCTSNode.init 3).expand [(5, 1/4), (7, 1/4)]).pucbScoreAt 0 k ≤
          ((MCTSNode.init 3).expand [(5, 1/4), (7, 1/4)]).pucbScoreAt 0 j) ∧
      ∀ k, k < j →
        ((MCTSNode.init 3).expand [(5, 1/4), (7, 1/4)]).pucbScoreAt 0 k <
          ((MCTSNode.init 3).expand [(5, 1/4), (7, 1/4)]).pucbScoreAt 0 j) ∧
    ((MCTSNode.init 3).expand
      [(5, 1/4), (7, 1/4)]).select_next_action 0 = some 0 :=
  ⟨claim_C5.1 ((MCTSNode.init 3).expand [(5, 1/4), (7, 1/4)]) 0
      (by decide) (by decide),
    claim_C5.2 (MCTSNode.init 3) 0 5 7 (1/4) (by decide) (by decide)⟩

/-! ### Claim C6 -/

/-- C6: `get_best_move_index` returns the lowest index attaining the
maximum of `children_visits[:num_children]` (index 0 when all counts
are equal, in particular all zero), and `get_best_move` returns the
`action` entry at exactly that index. -/
theorem claim_C6 (nd : MCTSNode)
    (h1 : 1 ≤ nd.num_children)
    (h2 : nd.num_children ≤ nd.children_visits.length) :
    ∃ j, nd.get_best_move_index = some j ∧ j < nd.num_children ∧
      (∀ k, k < nd.num_children →
        nd.children_visits.getD k 0 ≤ nd.children_visits.getD j 0) ∧
      (∀ k, k < j →
        nd.children_visits.getD k 0 < nd.children_visits.getD j 0) ∧
      nd.get_best_move = some (nd.action.getD j 0) ∧
      ((∀ k, k < nd.num_children → nd.children_visits.getD k 0 = 0) →
        j = 0) := by
  have hlen : (nd.children_visits.take nd.num_children).length =
      nd.num_children := by
    rw [List.length_take]
    omega
  have hne : nd.children_visits.take nd.num_children ≠ [] := by
    intro hemp
    rw [hemp] at hlen
    simp at hlen
    omega
  obtain ⟨j, hj⟩ := argmaxList_isSome _ hne
  obtain ⟨hjlen, hmax, hfirst⟩ := argmaxList_spec 0 _ j hj
  rw [hlen] at hjlen
  have hgetD : ∀ k, k < nd.num_children →
      (nd.children_visits.take nd.num_children).getD k 0 =
        nd.children_visits.getD k 0 := fun k hk =>
    getD_take_of_lt _ _ _ _ hk
  have hmax' : ∀ k, k < nd.num_children →
      nd.children_visits.getD k 0 ≤ nd.children_visits.getD j 0 := by
    intro k hk
    have := hmax k (by rw [hlen]; exact hk)
    rwa [hgetD k hk, hgetD j hjlen] at this
  have hfirst' : ∀ k, k < j →
      nd.children_visits.getD k 0 < nd.children_visits.getD j 0 := by
    intro k hk
    have := hfirst k hk
    rwa [hgetD k (by omega), hgetD j hjlen] at this
  refine ⟨j, hj, hjlen, hmax', hfirst', ?_, ?_⟩
  · unfold MCTSNode.get_best_move MCTSNode.get_best_move_index
    rw [hj]
    rfl
  · intro hzero
    by_contra hj0
    have h01 : (0 : ℕ) < j := Nat.pos_of_ne_zero hj0
    have := hfirst' 0 h01
    rw [hzero 0 (by omega), hzero j hjlen] at this
    exact lt_irrefl _ this

/-- Witness for C6 on a concrete expanded node whose second child has
the strictly largest visit count. -/
theorem claim_C6_witness :
    ∃ j, (((MCTSNode.init 3).expand
        [(5, 1/4), (7, 1/4)]).update_child_value 1 1).get_best_move_index =
        some j ∧
      j < (((MCTSNode.init 3).expand
        [(5, 1/4), (7, 1/4)]).update_child_value 1 1).num_children ∧
      (∀ k, k < (((MCTSNode.init 3).expand
          [(5, 1/4), (7, 1/4)]).update_child_value 1 1).num_children →
        (((MCTSNode.init 3).expand
          [(5, 1/4), (7, 1/4)]).update_child_value 1 1).children_visits.getD k 0 ≤
          (((MCTSNode.init 3).expand
            [(5, 1/4), (7, 1/4)]).update_child_value 1 1).children_visits.getD j 0) ∧
      (∀ k, k < j →
        (((MCTSNode.init 3).expand
          [(5, 1/4), (7, 1/4)]).update_child_value 1 1).children_visits.getD k 0 <
          (((MCTSNode.init 3).expand
            [(5, 1/4), (7, 1/4)]).update_child_value 1 1).children_visits.getD j 0) ∧
      (((MCTSNode.init 3).expand
        [(5, 1/4), (7, 1/4)]).update_child_value 1 1).get_best_move =
        some ((((MCTSNode.init 3).expand
          [(5, 1/4), (7, 1/4)]).update_child_value 1 1).action.getD j 0) ∧
      ((∀ k, k < (((MCTSNode.init 3).expand
          [(5, 1/4), (7, 1/4)]).update_child_value 1 1).num_children →
        (((MCTSNode.init 3).expand
          [(5, 1/4), (7, 1/4)]).update_child_value 1 1).children_visits.getD k 0 = 0) →
        j = 0) :=
  claim_C6 (((MCTSNode.init 3).expand
    [(5, 1/4), (7, 1/4)]).update_child_value 1 1) (by decide) (by decide)

/-! ### Claim C10 -/

/-- C10: on a node with `num_children = 0` both `select_next_action`
and `get_best_move_index` take `np.argmax` of an empty slice, which
raises `ValueError` (`none` in the embedding): `num_children ≥ 1` is an
implicit precondition of both. -/
theorem claim_C10 (nd : MCTSNode) (s : ℚ) (h : nd.num_children = 0) :
    nd.select_next_action s = none ∧ nd.get_best_move_index = none := by
  unfold MCTSNode.select_next_action MCTSNode.get_best_move_index
  rw [h]
  simp [argmaxList]

/-- Witness for C10 on a freshly constructed (never expanded) node. -/
theorem claim_C10_witness :
    (MCTSNode.init 3).num_children = 0 ∧
    (MCTSNode.init 3).select_next_action 0 = none ∧
    (MCTSNode.init 3).get_best_move_index = none :=
  ⟨rfl, (claim_C10 (MCTSNode.init 3) 0 rfl).1,
    (claim_C10 (MCTSNode.init 3) 0 rfl).2⟩

/-! ### Claim C7 (corrected) -/

/-- Counterexample to C7 as stated: hash 5 is saved at move 0, then the
same slot is overwritten (no `clear()` in between) — `has_same_hash 5`
does not remain true. -/
theorem claim_C7_counterexample :
    ((Record.init.save 0 Stone.BLACK 4 5).1).has_same_hash 5 = true ∧
    (((Record.init.save 0 Stone.BLACK 4 5).1).save 0
      Stone.WHITE 6 7).1.has_same_hash 5 = false := by
  decide

/-- C7 as amended: `has_same_hash(h)` is true iff `h` equals the hash
stored in some slot (including empty slots, so `has_same_hash 0` holds
on a fresh or cleared ledger, and a nonzero hash is absent after
`clear()`); it is true immediately after any in-range save that wrote
`h`; and it remains true under a subsequent save that does not
overwrite a slot currently holding `h` (an overwriting save at the same
move number can make it false before any `clear()`). -/
theorem claim_C7 (r : Record) (h : Fin (2 ^ 64)) (hr : r.WF) :
    (r.has_same_hash h = true ↔ h ∈ r.hash_value) ∧
    Record.init.has_same_hash 0 = true ∧
    r.clear.has_same_hash 0 = true ∧
    (∀ h' : Fin (2 ^ 64), h' ≠ 0 → r.clear.has_same_hash h' = false) ∧
    (∀ (moves : ℕ) (c : Stone) (p : ℤ), moves < MAX_RECORDS →
      ((r.save moves c p h).1).has_same_hash h = true) ∧
    ∀ (moves : ℕ) (c : Stone) (p : ℤ) (h' : Fin (2 ^ 64)),
      r.has_same_hash h = true → r.hash_value.getD moves 0 ≠ h →
      ((r.save moves c p h').1).has_same_hash h = true := by
  obtain ⟨hc, hp, hh⟩ := hr
  have hmemiff : ∀ (rr : Record) (g : Fin (2 ^ 64)),
      rr.has_same_hash g = true ↔ g ∈ rr.hash_value := by
    intro rr g
    simp [Record.has_same_hash, List.contains, List.elem_iff]
  refine ⟨hmemiff r h, ?_, ?_, ?_, ?_, ?_⟩
  · rw [hmemiff]
    have hnz : MAX_RECORDS ≠ 0 := by norm_num [MAX_RECORDS, BOARD_SIZE]
    simp [Record.init, List.mem_replicate, hnz]
  · rw [hmemiff]
    have hnz : MAX_RECORDS ≠ 0 := by norm_num [MAX_RECORDS, BOARD_SIZE]
    simp [Record.clear, Record.init, List.mem_replicate, hnz]
  · intro h' hne
    rw [← Bool.not_eq_true, hmemiff]
    simp only [Record.clear, Record.init, List.mem_replicate]
    rintro ⟨-, hcontra⟩
    exact hne hcontra
  · intro moves c p hlt
    rw [hmemiff]
    unfold Record.save
    rw [if_pos hlt]
    exact List.mem_set r.hash_value moves (by omega) h
  · intro moves c p h' hsame hne
    rw [hmemiff] at hsame ⊢
    unfold Record.save
    split
    · rename_i hlt
      show h ∈ r.hash_value.set moves h'
      obtain ⟨i, hi, hie⟩ := List.getElem_of_mem hsame
      have hmi : moves ≠ i := by
        intro hcon
        subst hcon
        exact hne (by rw [List.getD_eq_getElem r.hash_value 0 hi]; exact hie)
      rw [List.mem_iff_getElem]
      exact ⟨i, by simpa using hi, by rw [List.getElem_set_ne hmi]; exact hie⟩
    · exact hsame

/-- Witness for C7: a ledger holding hash 5 at move 0; a save at move 1
(whose slot holds 0, not 5) preserves `has_same_hash 5`. -/
theorem claim_C7_witness :
    (((Record.init.save 0 Stone.BLACK 4 5).1).has_same_hash 5 = true ↔
      (5 : Fin (2 ^ 64)) ∈ (Record.init.save 0 Stone.BLACK 4 5).1.hash_value) ∧
    Record.init.has_same_hash 0 = true ∧
    ((((Record.init.save 0 Stone.BLACK 4 5).1).save 1
        Stone.WHITE 6 7).1).has_same_hash 5 = true :=
  ⟨(claim_C7 (Record.init.save 0 Stone.BLACK 4 5).1 5
      (Record.save_WF Record.init 0 Stone.BLACK 4 5 Record.init_WF)).1,
    (claim_C7 (Record.init.save 0 Stone.BLACK 4 5).1 5
      (Record.save_WF Record.init 0 Stone.BLACK 4 5 Record.init_WF)).2.1,
    (claim_C7 (Record.init.save 0 Stone.BLACK 4 5).1 5
      (Record.save_WF Record.init 0 Stone.BLACK 4 5
        Record.init_WF)).2.2.2.2.2 1 Stone.WHITE 6 7
      (by decide) (by decide)⟩

/-! ### Claim C8 -/

theorem updatePolicyGo_some (policy : List (ℤ × ℚ)) :
    ∀ (idxs : List ℕ) (nd : MCTSNode), idxs.Nodup →
      (∀ i ∈ idxs, i < nd.children_policy.length) →
      (∀ i ∈ idxs, (policy.lookup (nd.action.getD i 0)).isSome) →
      ∃ nd', updatePolicyGo policy idxs nd = some nd' ∧
        nd'.node_visits = nd.node_visits ∧
        nd'.virtual_loss = nd.virtual_loss ∧
        nd'.node_value_sum = nd.node_value_sum ∧
        nd'.action = nd.action ∧
        nd'.children_index = nd.children_index ∧
        nd'.children_value = nd.children_value ∧
        nd'.children_visits = nd.children_visits ∧
        nd'.children_virtual_loss = nd.children_virtual_loss ∧
        nd'.children_value_sum = nd.children_value_sum ∧
        nd'.noise = nd.noise ∧
        nd'.num_children = nd.num_children ∧
        nd'.children_policy.length = nd.children_policy.length ∧
        (∀ k, k ∉ idxs → nd'.children_policy.getD k 0 =
          nd.children_policy.getD k 0) ∧
        ∀ i ∈ idxs, ∀ q, policy.lookup (nd.action.getD i 0) = some q →
          nd'.children_policy.getD i 0 = q := by
  intro idxs
  induction idxs with
  | nil =>
      intro nd _ _ _
      exact ⟨nd, rfl, rfl, rfl, rfl, rfl, rfl, rfl, rfl, rfl, rfl, rfl,
        rfl, rfl, fun k _ => rfl, fun i hi => absurd hi (by simp)⟩
  | cons i rest ih =>
      intro nd hnodup hlt hsome
      obtain ⟨q, hq⟩ := Option.isSome_iff_exists.mp
        (hsome i (List.mem_cons_self i rest))
      have hstep : updatePolicyGo policy (i :: rest) nd =
          updatePolicyGo policy rest
            { nd with children_policy := nd.children_policy.set i q } := by
        simp only [updatePolicyGo, hq]
      obtain ⟨nd', hrun, e1, e2, e3, e4, e5, e6, e7, e8, e9, e10, e11,
        e12, hout, hin⟩ := ih
        { nd with children_policy := nd.children_policy.set i q }
        hnodup.of_cons
        (by intro j hj; simpa using hlt j (List.mem_cons_of_mem i hj))
        (by intro j hj; exact hsome j (List.mem_cons_of_mem i hj))
      have hinotrest : i ∉ rest := (List.nodup_cons.mp hnodup).1
      refine ⟨nd', by rw [hstep]; exact hrun, e1, e2, e3, e4, e5, e6, e7,
        e8, e9, e10, e11, by rw [e12]; simp, ?_, ?_⟩
      · intro k hk
        have hknotrest : k ∉ rest := fun hc =>
          hk (List.mem_cons_of_mem i hc)
        have hki : i ≠ k := fun hc => hk (hc ▸ List.mem_cons_self i rest)
        rw [hout k hknotrest, getD_set_ne _ i k _ _ hki]
      · intro j hj q' hq'
        rcases List.mem_cons.mp hj with hji | hjrest
        · subst hji
          have hqq : q' = q := by
            rw [hq] at hq'
            exact (Option.some.injEq _ _).mp hq'.symm
          subst hqq
          rw [hout j hinotrest,
            getD_set_self _ j _ _ (hlt j (List.mem_cons_self j rest))]
        · exact hin j hjrest q' hq'

theorem updatePolicyGo_none (policy : List (ℤ × ℚ)) :
    ∀ (idxs : List ℕ) (nd : MCTSNode),
      (∃ i ∈ idxs, policy.lookup (nd.action.getD i 0) = none) →
      updatePolicyGo policy idxs nd = none := by
  intro idxs
  induction idxs with
  | nil =>
      intro nd h
      obtain ⟨i, hi, _⟩ := h
      exact absurd hi (by simp)
  | cons j rest ih =>
      intro nd h
      obtain ⟨i, hi, hnone⟩ := h
      cases hj : policy.lookup (nd.action.getD j 0) with
      | none => simp only [updatePolicyGo, hj]
      | some q =>
          have hirest : i ∈ rest := by
            rcases List.mem_cons.mp hi with hij | hr
            · subst hij
              rw [hj] at hnone
              exact absurd hnone (by simp)
            · exact hr
          have hstep : updatePolicyGo policy (j :: rest) nd =
              updatePolicyGo policy rest
                { nd with
                  children_policy := nd.children_policy.set j q } := by
            simp only [updatePolicyGo, hj]
          rw [hstep]
          exact ih _ ⟨i, hirest, hnone⟩

/-- C8: if every `action[i]` of an expanded node is a key of the policy
map, `update_policy` overwrites `children_policy[i]` with the mapped
value for each child and changes nothing else; if some existing action
is missing from the map, `update_policy` raises `KeyError` (`none`)
rather than silently returning or skipping. -/
theorem claim_C8 (nd : MCTSNode) (policy : List (ℤ × ℚ))
    (hwf : nd.num_children ≤ nd.children_policy.length) :
    ((∀ i, i < nd.num_children →
        (policy.lookup (nd.action.getD i 0)).isSome) →
      ∃ nd', nd.update_policy policy = some nd' ∧
        (∀ i, i < nd.num_children →
          ∀ q, policy.lookup (nd.action.getD i 0) = some q →
            nd'.children_policy.getD i 0 = q) ∧
        (∀ k, nd.num_children ≤ k → nd'.children_policy.getD k 0 =
          nd.children_policy.getD k 0) ∧
        nd'.node_visits = nd.node_visits ∧
        nd'.virtual_loss = nd.virtual_loss ∧
        nd'.node_value_sum = nd.node_value_sum ∧
        nd'.action = nd.action ∧
        nd'.children_index = nd.children_index ∧
        nd'.children_value = nd.children_value ∧
        nd'.children_visits = nd.children_visits ∧
        nd'.children_virtual_loss = nd.children_virtual_loss ∧
        nd'.children_value_sum = nd.children_value_sum ∧
        nd'.noise = nd.noise ∧
        nd'.num_children = nd.num_children) ∧
    ((∃ i, i < nd.num_children ∧
        policy.lookup (nd.action.getD i 0) = none) →
      nd.update_policy policy = none) := by
  constructor
  · intro hsome
    obtain ⟨nd', hrun, e1, e2, e3, e4, e5, e6, e7, e8, e9, e10, e11,
      _, hout, hin⟩ := updatePolicyGo_some policy
      (List.range nd.num_children) nd (List.nodup_range _)
      (by intro i hi; exact lt_of_lt_of_le (List.mem_range.mp hi) hwf)
      (by intro i hi; exact hsome i (List.mem_range.mp hi))
    refine ⟨nd', hrun, ?_, ?_, e1, e2, e3, e4, e5, e6, e7, e8, e9, e10,
      e11⟩
    · intro i hi q hq
      exact hin i (List.mem_range.mpr hi) q hq
    · intro k hk
      exact hout k (by simpa using Nat.not_lt.mpr hk)
  · intro hmiss
    obtain ⟨i, hi, hnone⟩ := hmiss
    exact updatePolicyGo_none policy (List.range nd.num_children) nd
      ⟨i, List.mem_range.mpr hi, hnone⟩

/-- Witness for C8 on a concrete expanded node: a complete map updates
both priors; a map missing action 7 yields the error. -/
theorem claim_C8_witness :
    ((∀ i, i < ((MCTSNode.init 3).expand
        [(5, 1/4), (7, 1/4)]).num_children →
      (([(5, (1 : ℚ)/3), (7, 2/3)].lookup
        (((MCTSNode.init 3).expand
          [(5, 1/4), (7, 1/4)]).action.getD i 0)).isSome)) →
      ∃ nd', ((MCTSNode.init 3).expand
          [(5, 1/4), (7, 1/4)]).update_policy
            [(5, 1/3), (7, 2/3)] = some nd' ∧
        (∀ i, i < ((MCTSNode.init 3).expand
            [(5, 1/4), (7, 1/4)]).num_children →
          ∀ q, [(5, (1 : ℚ)/3), (7, 2/3)].lookup
            (((MCTSNode.init 3).expand
              [(5, 1/4), (7, 1/4)]).action.getD i 0) = some q →
            nd'.children_policy.getD i 0 = q) ∧
        (∀ k, ((MCTSNode.init 3).expand
            [(5, 1/4), (7, 1/4)]).num_children ≤ k →
          nd'.children_policy.getD k 0 =
            ((MCTSNode.init 3).expand
              [(5, 1/4), (7, 1/4)]).children_policy.getD k 0) ∧
        nd'.node_visits = ((MCTSNode.init 3).expand
          [(5, 1/4), (7, 1/4)]).node_visits ∧
        nd'.virtual_loss = ((MCTSNode.init 3).expand
          [(5, 1/4), (7, 1/4)]).virtual_loss ∧
        nd'.node_value_sum = ((MCTSNode.init 3).expand
          [(5, 1/4), (7, 1/4)]).node_value_sum ∧
        nd'.action = ((MCTSNode.init 3).expand
          [(5, 1/4), (7, 1/4)]).action ∧
        nd'.children_index = ((MCTSNode.init 3).expand
          [(5, 1/4), (7, 1/4)]).children_index ∧
        nd'.children_value = ((MCTSNode.init 3).expand
          [(5, 1/4), (7, 1/4)]).children_value ∧
        nd'.children_visits = ((MCTSNode.init 3).expand
          [(5, 1/4), (7, 1/4)]).children_visits ∧
        nd'.children_virtual_loss = ((MCTSNode.init 3).expand
          [(5, 1/4), (7, 1/4)]).children_virtual_loss ∧
        nd'.children_value_sum = ((MCTSNode.init 3).expand
          [(5, 1/4), (7, 1/4)]).children_value_sum ∧
        nd'.noise = ((MCTSNode.init 3).expand
          [(5, 1/4), (7, 1/4)]).noise ∧
        nd'.num_children = ((MCTSNode.init 3).expand
          [(5, 1/4), (7, 1/4)]).num_children) ∧
    ((∃ i, i < ((MCTSNode.init 3).expand
        [(5, 1/4), (7, 1/4)]).num_children ∧
      [(5, (1 : ℚ)/3)].lookup (((MCTSNode.init 3).expand
        [(5, 1/4), (7, 1/4)]).action.getD i 0) = none) →
      ((MCTSNode.init 3).expand
        [(5, 1/4), (7, 1/4)]).update_policy [(5, 1/3)] = none) :=
  ⟨(claim_C8 ((MCTSNode.init 3).expand [(5, 1/4), (7, 1/4)])
      [(5, 1/3), (7, 2/3)] (by decide)).1,
    (claim_C8 ((MCTSNode.init 3).expand [(5, 1/4), (7, 1/4)])
      [(5, 1/3)] (by decide)).2⟩

/-! ### Claim C9 (corrected) -/

/-- Counterexample to C9 as stated: the score is not monotonically
decreasing in the child total `n` for fixed `w`.  With `w = -1` the
mean-value term rises towards zero as `n` grows
(`score(n=1) = -1 < score(n=2) = -1/2`), and with `w = 5` the move from
the unvisited case `n = 0` (exploitation term dropped) to `n = 1`
raises the score from `0` to `5`. -/
theorem claim_C9_counterexample :
    pucbScore 1 1 (-1) 0 < pucbScore 1 2 (-1) 0 ∧
    pucbScore 1 0 5 0 < pucbScore 1 1 5 0 := by
  constructor <;> norm_num [pucbScore, PUCT_WEIGHT]

/-- C9 as amended: for a non-negative square-root factor the PUCB score
is monotonically non-decreasing in the exploration weight `p` (for
`n ≥ 0`) and in the accumulated value `w` (for `n ≥ 0`), and
monotonically non-increasing in the child total `n` over `n ≥ 1` for
fixed non-negative `w` and `p` (for negative `w`, or across the
`n = 0 → 1` boundary, the score can increase with `n`). -/
theorem claim_C9 (sqrtN : ℚ) (hs : 0 ≤ sqrtN) :
    (∀ (n : ℤ) (w p q : ℚ), 0 ≤ n → p ≤ q →
      pucbScore sqrtN n w p ≤ pucbScore sqrtN n w q) ∧
    (∀ (n : ℤ) (w v p : ℚ), 0 ≤ n → w ≤ v →
      pucbScore sqrtN n w p ≤ pucbScore sqrtN n v p) ∧
    ∀ (n m : ℤ) (w p : ℚ), 1 ≤ n → n ≤ m → 0 ≤ w → 0 ≤ p →
      pucbScore sqrtN m w p ≤ pucbScore sqrtN n w p := by
  refine ⟨?_, ?_, ?_⟩
  · intro n w p q hn hpq
    have hd : (0 : ℚ) < 1 + (n : ℚ) := by
      have h0 : (0 : ℚ) ≤ (n : ℚ) := by exact_mod_cast hn
      linarith
    unfold pucbScore PUCT_WEIGHT
    refine add_le_add_left ((div_le_div_iff_of_pos_right hd).mpr ?_) _
    rw [one_mul, one_mul]
    exact mul_le_mul_of_nonneg_right hpq hs
  · intro n w v p hn hwv
    by_cases hn0 : n = 0
    · simp [pucbScore, hn0]
    · have hpos : (0 : ℚ) < (n : ℚ) := by
        exact_mod_cast lt_of_le_of_ne hn (Ne.symm hn0)
      unfold pucbScore
      rw [if_neg hn0, if_neg hn0]
      exact add_le_add_right ((div_le_div_iff_of_pos_right hpos).mpr hwv) _
  · intro n m w p h1n hnm hw hp
    have hn0 : n ≠ 0 := by omega
    have hm0 : m ≠ 0 := by omega
    have hnpos : (0 : ℚ) < (n : ℚ) := by
      exact_mod_cast (by omega : (0 : ℤ) < n)
    have hcast : (n : ℚ) ≤ (m : ℚ) := by exact_mod_cast hnm
    unfold pucbScore PUCT_WEIGHT
    rw [if_neg hn0, if_neg hm0]
    have e1 : w / (m : ℚ) ≤ w / (n : ℚ) := by gcongr
    have e2 : 1 * p * sqrtN / (1 + (m : ℚ)) ≤
        1 * p * sqrtN / (1 + (n : ℚ)) := by
      gcongr
    exact add_le_add e1 e2

/-- Witness for C9 (amended) at concrete score inputs. -/
theorem claim_C9_witness :
    (0 : ℚ) ≤ 1 ∧
    pucbScore 1 0 0 0 ≤ pucbScore 1 0 0 1 ∧
    pucbScore 1 1 0 0 ≤ pucbScore 1 1 1 0 ∧
    pucbScore 1 2 1 1 ≤ pucbScore 1 1 1 1 :=
  ⟨by norm_num,
    (claim_C9 1 (by norm_num)).1 0 0 0 1 (by norm_num) (by norm_num),
    (claim_C9 1 (by norm_num)).2.1 1 0 1 0 (by norm_num) (by norm_num),
    (claim_C9 1 (by norm_num)).2.2 1 2 1 1 (by norm_num) (by norm_num)
      (by norm_num) (by norm_num)⟩
